import Mathlib

/-!
Verification of the `scratch` environment-registry tool (Go sources:
`env.go`, `cmd.go`, the pebble-backed store file) against its
natural-language specification.

The Go code is shallowly embedded: pure functions become Lean functions,
and the effectful commands (`NewCmd.Run`, `DeleteCmd.Run`, `ListCmd.Run`,
`Scaffolder.Build`) become functions over an oracle `World` describing the
outcome of every external operation (stat, mkdir, external commands,
store operations), returning their result together with the ordered list
of mutating effects they performed.
-/

namespace Scratch

/-! ## Strings and paths

`filepath.Join` from the Go standard library, specialised to the unix
path rules the tool runs under: join the non-empty elements with `/` and
clean the result (`path/filepath.Clean`).  `Clean` is embedded via the
standard component-stack formulation, which agrees with Go's lazybuf
loop: empty and `.` components vanish, `..` pops a previous component,
a leading `..` survives only in relative paths. -/

/-- Split a character list into its `/`-separated segments (`front` is
the current segment, reversed). -/
def pathSegments (front : List Char) : List Char → List String
  | [] => [String.mk front.reverse]
  | c :: rest =>
    if c = '/' then String.mk front.reverse :: pathSegments [] rest
    else pathSegments (c :: front) rest

/-- Join strings with `/` separators. -/
def joinSlash : List String → String
  | [] => ""
  | [s] => s
  | s :: rest => s ++ "/" ++ joinSlash rest

/-- Process cleaned path components; `acc` is the stack built so far
(in reverse). Mirrors the semantics of Go `filepath.Clean`'s element
loop for unix paths: empty and `.` components vanish, `..` pops a
previous component, a leading `..` survives only in relative paths. -/
def cleanComps (rooted : Bool) (acc : List String) : List String → List String
  | [] => acc.reverse
  | c :: rest =>
    if c = "" ∨ c = "." then cleanComps rooted acc rest
    else if c = ".." then
      match acc with
      | [] => if rooted then cleanComps rooted [] rest
              else cleanComps rooted [".."] rest
      | top :: below =>
        if top = ".." then cleanComps rooted (".." :: top :: below) rest
        else cleanComps rooted below rest
    else cleanComps rooted (c :: acc) rest

/-- Go `path/filepath.Clean` for unix paths. -/
def filepathClean (p : String) : String :=
  match p.data with
  | [] => "."
  | c :: rest =>
    let rooted := c = '/'
    let comps := cleanComps rooted [] (pathSegments [] (c :: rest))
    let body := joinSlash comps
    if rooted then "/" ++ body
    else if body = "" then "." else body

/-- Go `path/filepath.Join` on two elements: drop empty elements, join
with `/`, clean.  (`Join("", "")` is `""`.) -/
def filepathJoin (a b : String) : String :=
  match List.filter (fun s => s ≠ "") [a, b] with
  | [] => ""
  | parts => filepathClean (joinSlash parts)

example : filepathJoin "/base" "demo" = "/base/demo" := by decide
example : filepathJoin "" "demo" = "demo" := by decide
example : filepathClean "/a//b/./c/.." = "/a/b" := by decide

/-! ## JSON documents

`Spec.Save` marshals the spec with `encoding/json` and `LoadSpec`
unmarshals it.  The byte layer of `encoding/json` is embedded at the
level of JSON documents: a `Json` tree stands for the serialized payload
(`json.MarshalIndent` only adds whitespace, which `json.Unmarshal`
ignores). -/

/-- A JSON document.  Object fields keep their order, as the Go encoder
emits struct fields in declaration order and the decoder processes
object keys in document order. -/
inductive Json where
  | null : Json
  | bool (b : Bool) : Json
  | num (n : Int) : Json
  | str (s : String) : Json
  | arr (elems : List Json) : Json
  | obj (fields : List (String × Json)) : Json

/-! ## Spec (`env.go`)

Go declares `type SpecType string`; it is embedded as `String`
(`LoadSpec` performs no validation of the type value).  The Go struct
field `Type` is a Lean keyword, hence the field name `Type'`. -/

/-- Supported environment type `python` (Go `PythonSpec`). -/
def PythonSpec : String := "python"

/-- Go `SpecID`: `fmt.Sprintf("%s:%s", t, name)`. -/
def SpecID (t name : String) : String := t ++ ":" ++ name

/-- Go `Spec`: the environment definition `{Name, Type, Path}`. -/
structure Spec where
  Name : String
  Type' : String
  Path : String
deriving DecidableEq, Repr

/-- Go `NewSpec`: `Spec{name, t, filepath.Join(wd, name)}`. -/
def NewSpec (name t wd : String) : Spec :=
  ⟨name, t, filepathJoin wd name⟩

/-- Go `Spec.ID`: `SpecID(s.Type, s.Name)`. -/
def Spec.ID (s : Spec) : String := SpecID s.Type' s.Name

/-- Go `Spec.String`: `fmt.Sprintf("%s (%s) - %s", s.Name, s.Type, s.Path)`. -/
def Spec.toLine (s : Spec) : String :=
  s.Name ++ " (" ++ s.Type' ++ ") - " ++ s.Path

/-- Marshalling of a `Spec` by Go `encoding/json` (`Spec.Save`): a JSON
object with the exported fields in declaration order. -/
def Spec.marshal (s : Spec) : Json :=
  .obj [("Name", .str s.Name), ("Type", .str s.Type'), ("Path", .str s.Path)]

/-- ASCII lower-casing used for `encoding/json`'s case-insensitive field
matching. -/
def asciiLower (s : String) : String :=
  String.mk (s.data.map Char.toLower)

/-- Whether a JSON object key selects the Go struct field named
`field` (`encoding/json` matches exactly or case-insensitively). -/
def jsonFieldMatch (key field : String) : Bool :=
  key = field ∨ asciiLower key = asciiLower field

/-- Apply one JSON object entry to a partially decoded `Spec`, as Go
`json.Unmarshal` does: a key matching a string field requires a JSON
string value; unknown keys are ignored. -/
def unmarshalSpecField (s : Spec) : String × Json → Except String Spec
  | (k, v) =>
    if jsonFieldMatch k "Name" then
      match v with
      | .str x => .ok { s with Name := x }
      | _ => .error "cannot unmarshal into field Name of type string"
    else if jsonFieldMatch k "Type" then
      match v with
      | .str x => .ok { s with Type' := x }
      | _ => .error "cannot unmarshal into field Type of type SpecType"
    else if jsonFieldMatch k "Path" then
      match v with
      | .str x => .ok { s with Path := x }
      | _ => .error "cannot unmarshal into field Path of type string"
    else
      .ok s

/-- Decoding of a `Spec` payload by Go `json.Unmarshal` into a zero
`Spec`: the document must be an object; its entries are applied in
order; absent fields keep the zero value. -/
def unmarshalSpec (j : Json) : Except String Spec :=
  match j with
  | .obj fields =>
    fields.foldlM unmarshalSpecField ⟨"", "", ""⟩
  | _ => .error "cannot unmarshal into Go value of type main.Spec"

/-- Go `LoadSpec`: unmarshal, wrapping a failure as `unmarshal spec: …`. -/
def LoadSpec (j : Json) : Except String Spec :=
  match unmarshalSpec j with
  | .error e => .error ("unmarshal spec: " ++ e)
  | .ok s => .ok s

example : LoadSpec (Spec.marshal ⟨"demo", "python", "/d/demo"⟩) =
    .ok ⟨"demo", "python", "/d/demo"⟩ := rfl
example : (LoadSpec (.str "x")).isOk = false := rfl

/-! ## Dependency checking (`env.go`)

`CommandsExist` walks the command names and returns the error for the
FIRST name `exec.LookPath` fails on; `PythonEnvironment.Ready` calls it
on the single required command `uv`.  The execution path is the oracle
`look : String → Bool` (whether `exec.LookPath` succeeds).  Errors are
their Go message strings; `none` means success. -/

/-- Go `CommandsExist`: returns `command not found: n` for the first
name not on the path, `none` when all are found. -/
def CommandsExist (look : String → Bool) : List String → Option String
  | [] => none
  | n :: rest =>
    if look n then CommandsExist look rest
    else some ("command not found: " ++ n)

/-- The external commands the python provisioner requires (the argument
list of the `CommandsExist` call in `PythonEnvironment.Ready`). -/
def pythonRequiredCommands : List String := ["uv"]

/-- Go `PythonEnvironment.Ready`: wraps a `CommandsExist` failure as
`missing required commands: …`. -/
def PythonEnvironment.Ready (look : String → Bool) : Option String :=
  match CommandsExist look pythonRequiredCommands with
  | some e => some ("missing required commands: " ++ e)
  | none => none

/-! ## Substring test (used to state that an error message names a command) -/

/-- Whether `needle` is a leading run of `hay` (on characters). -/
def charsLeading : List Char → List Char → Bool
  | [], _ => true
  | _ :: _, [] => false
  | a :: as, b :: bs => a = b && charsLeading as bs

/-- Whether `needle` occurs contiguously inside `hay` (on characters). -/
def charsInside (needle : List Char) : List Char → Bool
  | [] => charsLeading needle []
  | c :: rest => charsLeading needle (c :: rest) || charsInside needle rest

/-- Whether string `needle` occurs inside string `hay`. -/
def strContains (hay needle : String) : Bool :=
  charsInside needle.data hay.data

example : strContains "missing required commands: command not found: uv" "uv" = true := by
  decide

/-! ## The outside world

All effectful operations the commands perform are resolved by an oracle
`World`; the commands additionally return the ordered trace of the
operations they attempted. -/

/-- Result of Go `os.Stat`: success, or one of the error classes
(`not exist`, permission, other). -/
inductive StatErr where
  | notExist : StatErr
  | permission : StatErr
  | other (msg : String) : StatErr
deriving DecidableEq, Repr

/-- Outcomes of the external operations a command run can perform. -/
structure World where
  /-- whether `exec.LookPath` finds the named command on the path -/
  look : String → Bool
  /-- result of `os.Stat` on a path -/
  stat : String → Except StatErr Unit
  /-- whether `os.MkdirAll` on a path succeeds -/
  mkdirOK : String → Bool
  /-- whether `RunCommand(wd, name, args…)` exits successfully -/
  runOK : String → String → List String → Bool
  /-- whether `os.RemoveAll` on a path succeeds -/
  removeOK : String → Bool
  /-- result of `store.Exists` on a key -/
  storeExists : String → Except String Bool
  /-- result of `store.Get` on a key -/
  storeGet : String → Except String Json
  /-- whether `store.Put` on a key succeeds -/
  storePutOK : String → Bool
  /-- whether `store.Delete` on a key succeeds -/
  storeDeleteOK : String → Bool
  /-- the `(key, error)` sequence yielded by `store.List` -/
  storeList : List (String × Option String)

/-- Operations attempted during a run, in order: filesystem and store
mutations, external command invocations, and the snapshot enumeration of
store keys. -/
inductive Effect where
  | mkdirAll (path : String) : Effect
  | runCmd (wd name : String) (args : List String) : Effect
  | storePut (key : String) (val : Json) : Effect
  | removeAll (path : String) : Effect
  | storeDelete (key : String) : Effect
  | listKey (key : String) : Effect

/-- Errors a command run can end with (Go returns wrapped error values;
each constructor stands for the error produced at one source location). -/
inductive Err where
  | unknownType (t : String) : Err
  | notReady (msg : String) : Err
  | alreadyExists : Err
  | mkdirFailed (path : String) : Err
  | provisionFailed (step : String) : Err
  | storeErr (msg : String) : Err
  | duplicate (id : String) : Err
  | getFailed (key : String) (msg : String) : Err
  | malformedSpec (msg : String) : Err
  | removeFailed (key : String) : Err
  | deleteFailed (key : String) : Err
  | putFailed (key : String) : Err
  | openFailed (program dir : String) : Err
  | scanErr : Err
  | listErr (msg : String) : Err
deriving DecidableEq, Repr

/-- Go `Spec.Exists`: `_, err := os.Stat(s.Path); return err == nil`. -/
def Spec.Exists (w : World) (s : Spec) : Bool :=
  match w.stat s.Path with
  | .ok _ => true
  | .error _ => false

/-! ## Scaffolder (`env.go`)

`Scaffolder.Build` resolves the provisioner for the spec's type (the
only variant is `PythonEnvironment`), checks readiness, checks the
target path is free, creates the directory tree, and delegates to the
provisioner's `Provision`. -/

/-- Go `PythonEnvironment.Provision`: `EnsureDirectory(dir)` (an
`os.MkdirAll`), then `uv init`, then `uv venv`, each aborting on
failure. -/
def PythonEnvironment.Provision (w : World) (dir : String) :
    Except Err Unit × List Effect :=
  if ¬ w.mkdirOK dir then
    (.error (.mkdirFailed dir), [.mkdirAll dir])
  else if ¬ w.runOK dir "uv" ["init"] then
    (.error (.provisionFailed "init uv"), [.mkdirAll dir, .runCmd dir "uv" ["init"]])
  else if ¬ w.runOK dir "uv" ["venv"] then
    (.error (.provisionFailed "uv venv"),
      [.mkdirAll dir, .runCmd dir "uv" ["init"], .runCmd dir "uv" ["venv"]])
  else
    (.ok (), [.mkdirAll dir, .runCmd dir "uv" ["init"], .runCmd dir "uv" ["venv"]])

/-- Go `Scaffolder.Build`: resolve provisioner (only `python` is
mapped), `Ready`, stat the target (any stat success means "environment
already exists at location"; any stat error proceeds), `os.MkdirAll`,
then `Provision`. -/
def Scaffolder.Build (w : World) (spec : Spec) : Except Err Unit × List Effect :=
  if spec.Type' ≠ PythonSpec then
    (.error (.unknownType spec.Type'), [])
  else
    match PythonEnvironment.Ready w.look with
    | some e => (.error (.notReady e), [])
    | none =>
      match w.stat spec.Path with
      | .ok _ => (.error .alreadyExists, [])
      | .error _ =>
        if ¬ w.mkdirOK spec.Path then
          (.error (.mkdirFailed spec.Path), [.mkdirAll spec.Path])
        else
          let pr := PythonEnvironment.Provision w spec.Path
          (pr.1, .mkdirAll spec.Path :: pr.2)

/-! ## Create (`cmd.go`, `NewCmd.Run`) -/

/-- Go `Spec.Save`: marshal the spec (marshalling string fields cannot
fail) and `store.Put` it under its identifier. -/
def Spec.Save (w : World) (s : Spec) : Except Err Unit × List Effect :=
  if w.storePutOK s.ID then (.ok (), [.storePut s.ID s.marshal])
  else (.error (.putFailed s.ID), [.storePut s.ID s.marshal])

/-- Go `OpenFolder`: `RunCommand("", program, dir)`, wrapping failure. -/
def OpenFolder (w : World) (program dir : String) : Except Err Unit × List Effect :=
  if w.runOK "" program [dir] then (.ok (), [.runCmd "" program [dir]])
  else (.error (.openFailed program dir), [.runCmd "" program [dir]])

/-- Arguments of `NewCmd` after output-directory resolution
(`resolveOutputDir` is an OS-convention lookup outside the core). -/
structure NewCmdArgs where
  Name : String
  Type' : String
  OutputDir : String
  Open : String
  NoOpen : Bool

/-- Go `NewCmd.spec`: build the `Spec` from the arguments and the
resolved output directory. -/
def NewCmd.spec (c : NewCmdArgs) : Spec :=
  NewSpec c.Name c.Type' c.OutputDir

/-- Go `NewCmd.Run`: duplicate check in the store, `Scaffolder.Build`,
`Spec.Save`, then (unless `--no-open`) `OpenFolder`; each step's error
is returned immediately. -/
def NewCmd.Run (w : World) (c : NewCmdArgs) : Except Err Unit × List Effect :=
  let spec := NewCmd.spec c
  match w.storeExists spec.ID with
  | .error e => (.error (.storeErr e), [])
  | .ok true => (.error (.duplicate spec.ID), [])
  | .ok false =>
    match Scaffolder.Build w spec with
    | (.error e, fx) => (.error e, fx)
    | (.ok _, fx) =>
      match Spec.Save w spec with
      | (.error e, fxS) => (.error e, fx ++ fxS)
      | (.ok _, fxS) =>
        if c.NoOpen then (.ok (), fx ++ fxS)
        else
          let op := OpenFolder w c.Open spec.Path
          (op.1, fx ++ fxS ++ op.2)

/-! ## Interactive confirmation and delete (`cmd.go`) -/

/-- Go `askForConfirmation` over the stream of `fmt.Scanln` outcomes
(`some s` = a successfully scanned word, `none` = a scan error; an
exhausted stream scans with an end-of-input error): answers `y`/`yes`
and `n`/`no` are accepted, a scan error is returned, anything else
re-prompts.  Also returns the unconsumed remainder of the stream. -/
def askForConfirmation :
    List (Option String) → Except Err Bool × List (Option String)
  | [] => (.error .scanErr, [])
  | none :: rest => (.error .scanErr, rest)
  | some s :: rest =>
    if s = "y" ∨ s = "yes" then (.ok true, rest)
    else if s = "n" ∨ s = "no" then (.ok false, rest)
    else askForConfirmation rest

/-- Arguments of `DeleteCmd`. -/
structure DeleteCmdArgs where
  ID : String
  Name : String
  Type' : String
  Force : Bool
  All : Bool

/-- Go `DeleteCmd.deleteKeyEnv`: `store.Get`, `LoadSpec`, confirmation
unless forced (declining returns without error), recursive directory
removal when the directory exists (aborting on failure), then
`store.Delete`.  Returns the result, the effect trace, and the
unconsumed input stream. -/
def DeleteCmd.deleteKeyEnv (w : World) (key : String) (force : Bool)
    (input : List (Option String)) :
    Except Err Unit × List Effect × List (Option String) :=
  match w.storeGet key with
  | .error e => (.error (.getFailed key e), [], input)
  | .ok data =>
    match LoadSpec data with
    | .error e => (.error (.malformedSpec e), [], input)
    | .ok spec =>
      let conf : Except Err Bool × List (Option String) :=
        if force then (.ok true, input) else askForConfirmation input
      match conf with
      | (.error e, rest) => (.error e, [], rest)
      | (.ok false, rest) => (.ok (), [], rest)
      | (.ok true, rest) =>
        if Spec.Exists w spec then
          if ¬ w.removeOK spec.Path then
            (.error (.removeFailed key), [.removeAll spec.Path], rest)
          else if ¬ w.storeDeleteOK key then
            (.error (.deleteFailed key), [.removeAll spec.Path, .storeDelete key], rest)
          else
            (.ok (), [.removeAll spec.Path, .storeDelete key], rest)
        else
          if ¬ w.storeDeleteOK key then
            (.error (.deleteFailed key), [.storeDelete key], rest)
          else
            (.ok (), [.storeDelete key], rest)

/-- Snapshot loop of `DeleteCmd.Run --all`: drain `store.List`, aborting
on the first errored element, collecting the keys; each enumerated key
is recorded as a `listKey` event. -/
def snapshotKeys : List (String × Option String) → Except Err (List String) × List Effect
  | [] => (.ok [], [])
  | (_, some e) :: _ => (.error (.listErr e), [])
  | (k, none) :: rest =>
    match snapshotKeys rest with
    | (.error e, fx) => (.error e, .listKey k :: fx)
    | (.ok ks, fx) => (.ok (k :: ks), .listKey k :: fx)

/-- Deletion loop of `DeleteCmd.Run --all`: delete the snapshotted keys
in order with `deleteKeyEnv`, stopping at the first failure. -/
def deleteKeys (w : World) (force : Bool) :
    List String → List (Option String) →
    Except Err Unit × List Effect × List (Option String)
  | [], input => (.ok (), [], input)
  | k :: ks, input =>
    match DeleteCmd.deleteKeyEnv w k force input with
    | (.error e, fx, rest) => (.error e, fx, rest)
    | (.ok _, fx, rest) =>
      let r := deleteKeys w force ks rest
      (r.1, fx ++ r.2.1, r.2.2)

/-- Keys on which the bulk-delete loop invokes the single-delete
procedure, in order: mirrors the recursion of `deleteKeys`, recording
each key whose `deleteKeyEnv` call is actually made. -/
def deleteAttempts (w : World) (force : Bool) :
    List String → List (Option String) → List String
  | [], _ => []
  | k :: ks, input =>
    match DeleteCmd.deleteKeyEnv w k force input with
    | (.error _, _, _) => [k]
    | (.ok _, _, rest) => k :: deleteAttempts w force ks rest

/-- Go `DeleteCmd.Run`: without `--all`, resolve the key (explicit ID,
or `type:name`) and run the single delete; with `--all`, snapshot the
full key list first, then delete each key with `deleteKeyEnv`. -/
def DeleteCmd.Run (w : World) (d : DeleteCmdArgs)
    (input : List (Option String)) : Except Err Unit × List Effect :=
  if ¬ d.All then
    let key := if d.ID ≠ "" then d.ID else Spec.ID ⟨d.Name, d.Type', ""⟩
    let r := DeleteCmd.deleteKeyEnv w key d.Force input
    (r.1, r.2.1)
  else
    match snapshotKeys w.storeList with
    | (.error e, fx) => (.error e, fx)
    | (.ok keys, fx) =>
      let r := deleteKeys w d.Force keys input
      (r.1, fx ++ r.2.1)

/-! ## List (`cmd.go`, `ListCmd.Run`) -/

/-- Eager enumeration of `PebbleStore.ListFunc` composed with an
output-producing handler: the handler runs on each `(key, payload)`
entry in order, its first error aborts the remaining enumeration and is
propagated; printed lines and logged messages accumulate in order. -/
def ListFuncAcc (handle : String → Json → Except Err Unit × List String × List String) :
    List (String × Json) → Except Err Unit × List String × List String
  | [] => (.ok (), [], [])
  | (k, v) :: rest =>
    match handle k v with
    | (.error e, p, l) => (.error e, p, l)
    | (.ok _, p, l) =>
      let r := ListFuncAcc handle rest
      (r.1, p ++ r.2.1, l ++ r.2.2)

/-- The handler closure of Go `ListCmd.Run`: `LoadSpec` the payload
(failure propagates), log and skip a spec whose directory does not
exist, otherwise print the path (with `--directories`) or the spec
line. -/
def ListCmd.handle (w : World) (dirOnly : Bool) (_key : String) (data : Json) :
    Except Err Unit × List String × List String :=
  match LoadSpec data with
  | .error e => (.error (.malformedSpec e), [], [])
  | .ok spec =>
    if ¬ Spec.Exists w spec then
      (.ok (), [], ["Environment does not exist: " ++ spec.ID])
    else if dirOnly then (.ok (), [spec.Path], [])
    else (.ok (), [spec.toLine], [])

/-- Go `ListCmd.Run`: `store.ListFunc` with the handler above, over the
store's `(key, payload)` entries.  Returns the result, the printed
lines, and the logged inconsistency messages. -/
def ListCmd.Run (w : World) (dirOnly : Bool) (entries : List (String × Json)) :
    Except Err Unit × List String × List String :=
  ListFuncAcc (ListCmd.handle w dirOnly) entries

/-! ## Concrete worlds and inputs used by witnesses -/

/-- A world where every operation succeeds, no key is stored, and no
path exists yet. -/
def freshWorld : World :=
  { look := fun _ => true
    stat := fun _ => .error .notExist
    mkdirOK := fun _ => true
    runOK := fun _ _ _ => true
    removeOK := fun _ => true
    storeExists := fun _ => .ok false
    storeGet := fun _ => .error "pebble: not found"
    storePutOK := fun _ => true
    storeDeleteOK := fun _ => true
    storeList := [] }

/-- A world whose filesystem answers every stat with a permission
error. -/
def permWorld : World :=
  { freshWorld with stat := fun _ => .error .permission }

/-- The sample spec `demo` of type `python` under `/data`. -/
def demoSpec : Spec := ⟨"demo", "python", "/data/demo"⟩

/-- Arguments creating the demo environment, with folder opening on. -/
def demoArgs : NewCmdArgs :=
  { Name := "demo", Type' := "python", OutputDir := "/data"
    Open := "code", NoOpen := false }

/-- A world where the demo spec is stored and its directory exists. -/
def storedDemoWorld : World :=
  { freshWorld with
    stat := fun _ => .ok ()
    storeExists := fun _ => .ok true
    storeGet := fun _ => .ok demoSpec.marshal }

/-- The stored-demo world with a failing recursive directory removal. -/
def removeFailWorld : World :=
  { storedDemoWorld with removeOK := fun _ => false }

/-- A fresh world where only the folder-open invocation (`code`, run
with an empty working directory) fails. -/
def openFailWorld : World :=
  { freshWorld with
    runOK := fun wd name _ => if wd = "" ∧ name = "code" then false else true }

/-- Sample spec `a` (directory present in `listWorld`). -/
def specA : Spec := ⟨"a", "python", "/data/a"⟩

/-- Sample spec `b` (directory missing in `listWorld`). -/
def specB : Spec := ⟨"b", "python", "/data/b"⟩

/-- Sample spec `c` (behind the malformed entry in the listing run). -/
def specC : Spec := ⟨"c", "python", "/data/c"⟩

/-- A world where only `specA`'s directory exists on disk. -/
def listWorld : World :=
  { freshWorld with
    stat := fun p => if p = "/data/a" then .ok () else .error .notExist }

/-- A world holding environments `a` and `b` whose directories both
exist, where removing `a`'s directory fails. -/
def batchWorld : World :=
  { freshWorld with
    stat := fun p =>
      if p = "/data/a" ∨ p = "/data/b" then .ok () else .error .notExist
    storeGet := fun k =>
      if k = "python:a" then .ok specA.marshal
      else if k = "python:b" then .ok specB.marshal
      else .error "pebble: not found"
    removeOK := fun p => p ≠ "/data/a"
    storeList := [("python:a", none), ("python:b", none)] }

/-- Arguments of a forced `delete --all`. -/
def batchArgs : DeleteCmdArgs :=
  { ID := "", Name := "", Type' := "python", Force := true, All := true }

/-! ## Reference output of a listing run (stated from the spec)

The following two functions state, in the spec's words, which lines a
listing run prints and which entries it reports as inconsistent; the
C8 theorem relates `ListCmd.Run` to them. -/

/-- Lines a listing run should print: one per entry whose payload
decodes and whose directory exists. -/
def expectedPrinted (w : World) (dirOnly : Bool)
    (entries : List (String × Json)) : List String :=
  entries.filterMap fun e =>
    match LoadSpec e.2 with
    | .ok s =>
      if Spec.Exists w s then some (if dirOnly then s.Path else s.toLine)
      else none
    | .error _ => none

/-- Inconsistency reports a listing run should log: one per entry whose
payload decodes but whose directory is missing. -/
def expectedLogged (w : World) (entries : List (String × Json)) : List String :=
  entries.filterMap fun e =>
    match LoadSpec e.2 with
    | .ok s =>
      if Spec.Exists w s then none
      else some ("Environment does not exist: " ++ s.ID)
    | .error _ => none

end Scratch

namespace Scratch

/-! ## Theorems -/

/-- C5: for every `(name, type, base_dir)`, the constructed Spec's path
equals `join(base_dir, name)` and its identifier equals
`type ++ ":" ++ name`; both are pure Lean functions of their arguments,
hence deterministic. -/
theorem newSpec_path_join_and_id (name t wd : String) :
    (NewSpec name t wd).Path = filepathJoin wd name ∧
    (NewSpec name t wd).ID = t ++ ":" ++ name :=
  ⟨rfl, rfl⟩

/-- C9: the on-disk existence check returns `true` exactly when `stat`
on the spec's path succeeds, and every stat error — the permission
class included — yields `false`. -/
theorem specExists_iff_stat_ok (w : World) (s : Spec) :
    (Spec.Exists w s = true ↔ w.stat s.Path = .ok ()) ∧
    (∀ e, w.stat s.Path = .error e → Spec.Exists w s = false) := by
  constructor
  · unfold Spec.Exists
    cases h : w.stat s.Path with
    | ok u => cases u; simp
    | error e => simp
  · intro e he
    unfold Spec.Exists
    rw [he]

/-- Witness for C9: in a world whose stat calls all fail with a
permission error, the existence check on the demo spec is `false`. -/
theorem specExists_iff_stat_ok_witness :
    Spec.Exists permWorld demoSpec = false :=
  (specExists_iff_stat_ok permWorld demoSpec).2 .permission rfl

/-- C1: whenever the python provisioner's readiness check fails, its
error names every required external command absent from the execution
path (and some required command is indeed absent). -/
theorem pythonReady_error_names_all_missing (look : String → Bool) (e : String)
    (h : PythonEnvironment.Ready look = some e) :
    (∀ c ∈ pythonRequiredCommands, look c = false → strContains e c = true) ∧
    (∃ c ∈ pythonRequiredCommands, look c = false) := by
  have huv : look "uv" = false ∧
      e = "missing required commands: command not found: uv" := by
    by_cases hl : look "uv" = true
    · exfalso
      simp [PythonEnvironment.Ready, pythonRequiredCommands, CommandsExist, hl] at h
    · have hl' : look "uv" = false := by
        revert hl
        cases look "uv" <;> simp
      refine ⟨hl', ?_⟩
      simp [PythonEnvironment.Ready, pythonRequiredCommands, CommandsExist, hl'] at h
      exact h.symm
  obtain ⟨hl, he⟩ := huv
  subst he
  constructor
  · intro c hc _
    simp only [pythonRequiredCommands, List.mem_singleton] at hc
    subst hc
    decide
  · exact ⟨"uv", by simp [pythonRequiredCommands], hl⟩

/-- Witness for C1: with an empty execution path the readiness check
fails and its error names `uv`, the (only) missing required command. -/
theorem pythonReady_error_names_all_missing_witness :
    PythonEnvironment.Ready (fun _ => false) =
      some "missing required commands: command not found: uv" ∧
    strContains "missing required commands: command not found: uv" "uv" = true := by
  refine ⟨rfl, ?_⟩
  exact (pythonReady_error_names_all_missing (fun _ => false) _ rfl).1 "uv"
    (by simp [pythonRequiredCommands]) rfl

/-- C4: encoding a Spec (as `Spec.Save` marshals it) and decoding the
produced document (as `LoadSpec` does) returns the original Spec, for
every constructible Spec. -/
theorem spec_save_load_roundtrip (s : Spec) :
    LoadSpec (Spec.marshal s) = .ok s := by
  cases s
  rfl

/-- C10: the interactive confirmation accepts exactly the lowercase
words `y`, `yes`, `n`, `no` — any other scanned word, uppercase
variants included, re-prompts — and a declined confirmation makes the
single-delete procedure return without error and without any effect on
the store entry or the environment directory. -/
theorem confirmation_exact_and_decline_frame :
    (∀ rest, askForConfirmation (some "y" :: rest) = (.ok true, rest)) ∧
    (∀ rest, askForConfirmation (some "yes" :: rest) = (.ok true, rest)) ∧
    (∀ rest, askForConfirmation (some "n" :: rest) = (.ok false, rest)) ∧
    (∀ rest, askForConfirmation (some "no" :: rest) = (.ok false, rest)) ∧
    (∀ s rest, s ≠ "y" → s ≠ "yes" → s ≠ "n" → s ≠ "no" →
      askForConfirmation (some s :: rest) = askForConfirmation rest) ∧
    (∀ (w : World) (key : String) (data : Json) (spec : Spec) input rest,
      w.storeGet key = .ok data → LoadSpec data = .ok spec →
      askForConfirmation input = (.ok false, rest) →
      DeleteCmd.deleteKeyEnv w key false input = (.ok (), [], rest)) := by
  refine ⟨fun rest => rfl, fun rest => rfl, fun rest => rfl, fun rest => rfl,
    ?_, ?_⟩
  · intro s rest h1 h2 h3 h4
    simp only [askForConfirmation]
    simp [h1, h2, h3, h4]
  · intro w key data spec input rest hGet hLoad hConf
    simp [DeleteCmd.deleteKeyEnv, hGet, hLoad, hConf]

/-- Witness for C10: the uppercase word `Y` re-prompts, the following
`no` declines, and the single delete finishes without error and with an
empty effect trace. -/
theorem confirmation_exact_and_decline_frame_witness :
    askForConfirmation [some "Y", some "no"] = (.ok false, []) ∧
    DeleteCmd.deleteKeyEnv storedDemoWorld "python:demo" false
      [some "Y", some "no"] = (.ok (), [], []) := by
  have hstep := confirmation_exact_and_decline_frame.2.2.2.2.1 "Y" [some "no"]
    (by decide) (by decide) (by decide) (by decide)
  have hask : askForConfirmation [some "Y", some "no"] = (.ok false, []) := by
    rw [hstep]
    exact confirmation_exact_and_decline_frame.2.2.2.1 []
  refine ⟨hask, ?_⟩
  exact confirmation_exact_and_decline_frame.2.2.2.2.2 storedDemoWorld
    "python:demo" demoSpec.marshal demoSpec [some "Y", some "no"] []
    rfl rfl hask

/-- C3: in a single delete that reaches the removal phase with the
directory present, a failing recursive removal aborts the run with the
removal error before the store entry is touched, and a succeeding
removal strictly precedes the store-entry deletion in the effect
trace. -/
theorem delete_removes_dir_before_store_entry (w : World) (key : String)
    (force : Bool) (input rest : List (Option String)) (data : Json) (spec : Spec)
    (hGet : w.storeGet key = .ok data)
    (hLoad : LoadSpec data = .ok spec)
    (hConf : (if force then ((.ok true : Except Err Bool), input)
              else askForConfirmation input) = (.ok true, rest))
    (hDir : Spec.Exists w spec = true) :
    (w.removeOK spec.Path = false →
      DeleteCmd.deleteKeyEnv w key force input =
        (.error (.removeFailed key), [.removeAll spec.Path], rest)) ∧
    (w.removeOK spec.Path = true →
      (DeleteCmd.deleteKeyEnv w key force input).2.1 =
        [.removeAll spec.Path, .storeDelete key]) := by
  constructor <;> intro hrm
  · simp [DeleteCmd.deleteKeyEnv, hGet, hLoad, hConf, hDir, hrm]
  · cases hd : w.storeDeleteOK key <;>
      simp [DeleteCmd.deleteKeyEnv, hGet, hLoad, hConf, hDir, hrm, hd]

/-- Witness for C3: forcing deletion of the stored demo environment in
a world whose directory removal fails ends with the removal error and a
trace holding only the removal attempt — the store entry is never
deleted. -/
theorem delete_removes_dir_before_store_entry_witness :
    DeleteCmd.deleteKeyEnv removeFailWorld "python:demo" true [] =
      (.error (.removeFailed "python:demo"), [.removeAll "/data/demo"], []) :=
  (delete_removes_dir_before_store_entry removeFailWorld "python:demo" true
    [] [] demoSpec.marshal demoSpec rfl rfl rfl rfl).1 rfl

/-- C6: a create request whose identifier already has a store entry
fails with the duplicate-environment error and performs no effect at
all — no directory is created, no provisioner command runs, nothing is
stored. -/
theorem create_duplicate_no_mutation (w : World) (c : NewCmdArgs)
    (h : w.storeExists (NewCmd.spec c).ID = .ok true) :
    NewCmd.Run w c = (.error (.duplicate (NewCmd.spec c).ID), []) := by
  simp only [NewCmd.Run]
  rw [h]

/-- Witness for C6: creating `demo` in a world whose store already has
its identifier fails with the duplicate error and an empty effect
trace. -/
theorem create_duplicate_no_mutation_witness :
    NewCmd.Run storedDemoWorld demoArgs =
      (.error (.duplicate "python:demo"), []) :=
  create_duplicate_no_mutation storedDemoWorld demoArgs rfl

/-- Scaffolding never writes to the store: no `storePut` effect occurs
in a `Scaffolder.Build` trace. -/
theorem storePut_not_in_build_trace (w : World) (s : Spec) (k : String) (v : Json) :
    Effect.storePut k v ∉ (Scaffolder.Build w s).2 := by
  unfold Scaffolder.Build PythonEnvironment.Provision
  repeat' split
  all_goals simp

/-- The folder-open step always records exactly its one external
command invocation. -/
theorem openFolder_trace (w : World) (prog p : String) :
    (OpenFolder w prog p).2 = [.runCmd "" prog [p]] := by
  unfold OpenFolder
  split <;> rfl

/-- Counterexample to C2 as stated: in a world where everything
succeeds except the folder-open invocation, creating `demo` scaffolds
and persists the spec, yet `Run` returns the folder-open error — the
command fails instead of completing successfully. -/
theorem create_open_failure_fails_command :
    NewCmd.Run openFailWorld demoArgs =
      (.error (.openFailed "code" "/data/demo"),
        [.mkdirAll "/data/demo", .mkdirAll "/data/demo",
         .runCmd "/data/demo" "uv" ["init"], .runCmd "/data/demo" "uv" ["venv"],
         .storePut "python:demo" demoSpec.marshal,
         .runCmd "" "code" ["/data/demo"]]) := rfl

/-- C2 (amended): the Spec is persisted only after the Scaffolder
succeeds — any `storePut` in a create trace sits right after a
successful build's effects — and a failure of the subsequent
folder-open step is propagated as the command's error, although the
spec has already been persisted (the store entry is not rolled
back). -/
theorem create_persists_after_build_open_error_propagates
    (w : World) (c : NewCmdArgs) :
    (∀ k v, Effect.storePut k v ∈ (NewCmd.Run w c).2 →
      ∃ fxB rest, Scaffolder.Build w (NewCmd.spec c) = (.ok (), fxB) ∧
        (NewCmd.Run w c).2 =
          fxB ++ .storePut (NewCmd.spec c).ID (NewCmd.spec c).marshal :: rest) ∧
    (∀ fxB, w.storeExists (NewCmd.spec c).ID = .ok false →
      Scaffolder.Build w (NewCmd.spec c) = (.ok (), fxB) →
      w.storePutOK (NewCmd.spec c).ID = true →
      c.NoOpen = false →
      w.runOK "" c.Open [(NewCmd.spec c).Path] = false →
      NewCmd.Run w c =
        (.error (.openFailed c.Open (NewCmd.spec c).Path),
          fxB ++ [.storePut (NewCmd.spec c).ID (NewCmd.spec c).marshal,
                  .runCmd "" c.Open [(NewCmd.spec c).Path]])) := by
  constructor
  · intro k v hmem
    cases hse : w.storeExists (NewCmd.spec c).ID with
    | error e =>
      have hrun : NewCmd.Run w c = (.error (.storeErr e), []) := by
        simp only [NewCmd.Run]
        rw [hse]
      rw [hrun] at hmem
      simp at hmem
    | ok b =>
      cases b with
      | true =>
        have hrun : NewCmd.Run w c = (.error (.duplicate (NewCmd.spec c).ID), []) := by
          simp only [NewCmd.Run]
          rw [hse]
        rw [hrun] at hmem
        simp at hmem
      | false =>
        rcases hb : Scaffolder.Build w (NewCmd.spec c) with ⟨r, fx⟩
        cases r with
        | error e =>
          have hrun : NewCmd.Run w c = (.error e, fx) := by
            simp only [NewCmd.Run]
            rw [hse, hb]
          rw [hrun] at hmem
          have h2 := storePut_not_in_build_trace w (NewCmd.spec c) k v
          rw [hb] at h2
          exact absurd hmem h2
        | ok u =>
          cases u
          cases hput : w.storePutOK (NewCmd.spec c).ID with
          | false =>
            have hrun : (NewCmd.Run w c).2 =
                fx ++ [.storePut (NewCmd.spec c).ID (NewCmd.spec c).marshal] := by
              simp only [NewCmd.Run]
              rw [hse, hb]
              simp [Spec.Save, hput]
            exact ⟨fx, [], rfl, by rw [hrun]⟩
          | true =>
            cases hno : c.NoOpen with
            | true =>
              have hrun : (NewCmd.Run w c).2 =
                  fx ++ [.storePut (NewCmd.spec c).ID (NewCmd.spec c).marshal] := by
                simp only [NewCmd.Run]
                rw [hse, hb]
                simp [Spec.Save, hput, hno]
              exact ⟨fx, [], rfl, by rw [hrun]⟩
            | false =>
              have hrun : (NewCmd.Run w c).2 =
                  fx ++ [.storePut (NewCmd.spec c).ID (NewCmd.spec c).marshal] ++
                    [.runCmd "" c.Open [(NewCmd.spec c).Path]] := by
                simp only [NewCmd.Run]
                rw [hse, hb]
                simp [Spec.Save, hput, hno, openFolder_trace]
              exact ⟨fx, [.runCmd "" c.Open [(NewCmd.spec c).Path]], rfl,
                by rw [hrun]; simp⟩
  · intro fxB hse hb hput hno hrun
    simp only [NewCmd.Run]
    rw [hse, hb]
    simp [Spec.Save, hput, hno, OpenFolder, hrun]

/-- Witness for the amended C2: the open-failure world's create run
ends with the folder-open error while the trace shows the persisted
spec right after the successful build. -/
theorem create_persists_after_build_open_error_propagates_witness :
    NewCmd.Run openFailWorld demoArgs =
      (.error (.openFailed "code" "/data/demo"),
        [.mkdirAll "/data/demo", .mkdirAll "/data/demo",
         .runCmd "/data/demo" "uv" ["init"], .runCmd "/data/demo" "uv" ["venv"]] ++
        [.storePut "python:demo" demoSpec.marshal,
         .runCmd "" "code" ["/data/demo"]]) :=
  (create_persists_after_build_open_error_propagates openFailWorld demoArgs).2
    [.mkdirAll "/data/demo", .mkdirAll "/data/demo",
     .runCmd "/data/demo" "uv" ["init"], .runCmd "/data/demo" "uv" ["venv"]]
    rfl rfl rfl rfl rfl

/-- Step equation of a listing run on a decodable entry: the entry
contributes its printed line (directory present) or its logged report
(directory missing), and enumeration continues. -/
theorem listRun_cons_decodable (w : World) (dirOnly : Bool) (k : String)
    (v : Json) (s : Spec) (rest : List (String × Json))
    (hl : LoadSpec v = .ok s) :
    ListCmd.Run w dirOnly ((k, v) :: rest) =
      ((ListCmd.Run w dirOnly rest).1,
        (if Spec.Exists w s then [if dirOnly then s.Path else s.toLine]
         else []) ++ (ListCmd.Run w dirOnly rest).2.1,
        (if Spec.Exists w s then []
         else ["Environment does not exist: " ++ s.ID]) ++
          (ListCmd.Run w dirOnly rest).2.2) := by
  cases hex : Spec.Exists w s <;> cases dirOnly <;>
    simp [ListCmd.Run, ListFuncAcc, ListCmd.handle, hl, hex]

/-- Step equation of the expected printed lines on a decodable entry. -/
theorem expectedPrinted_cons_decodable (w : World) (dirOnly : Bool)
    (k : String) (v : Json) (s : Spec) (rest : List (String × Json))
    (hl : LoadSpec v = .ok s) :
    expectedPrinted w dirOnly ((k, v) :: rest) =
      (if Spec.Exists w s then [if dirOnly then s.Path else s.toLine]
       else []) ++ expectedPrinted w dirOnly rest := by
  cases hex : Spec.Exists w s <;> simp [expectedPrinted, hl, hex]

/-- Step equation of the expected logged reports on a decodable
entry. -/
theorem expectedLogged_cons_decodable (w : World) (k : String) (v : Json)
    (s : Spec) (rest : List (String × Json)) (hl : LoadSpec v = .ok s) :
    expectedLogged w ((k, v) :: rest) =
      (if Spec.Exists w s then []
       else ["Environment does not exist: " ++ s.ID]) ++
        expectedLogged w rest := by
  cases hex : Spec.Exists w s <;> simp [expectedLogged, hl, hex]

/-- C8: a listing run prints every decodable entry whose directory
exists, logs (and skips) every decodable entry whose directory is
missing without failing, and a decode failure on one entry aborts the
remaining enumeration, propagating the decode error while keeping the
output already produced. -/
theorem list_skips_missing_and_aborts_on_decode_error
    (w : World) (dirOnly : Bool) :
    (∀ entries, (∀ e ∈ entries, (LoadSpec e.2).isOk = true) →
      ListCmd.Run w dirOnly entries =
        (.ok (), expectedPrinted w dirOnly entries, expectedLogged w entries)) ∧
    (∀ (pre : List (String × Json)) k bad post msg,
      (∀ e ∈ pre, (LoadSpec e.2).isOk = true) →
      LoadSpec bad = .error msg →
      ListCmd.Run w dirOnly (pre ++ (k, bad) :: post) =
        (.error (.malformedSpec msg),
          expectedPrinted w dirOnly pre, expectedLogged w pre)) := by
  constructor
  · intro entries h
    induction entries with
    | nil => rfl
    | cons e rest ih =>
      obtain ⟨k, v⟩ := e
      have hv := h (k, v) (List.mem_cons_self _ _)
      have hrest := ih fun x hx => h x (List.mem_cons_of_mem _ hx)
      cases hl : LoadSpec v with
      | error msg => rw [hl] at hv; simp [Except.isOk, Except.toBool] at hv
      | ok s =>
        rw [listRun_cons_decodable w dirOnly k v s rest hl, hrest,
          expectedPrinted_cons_decodable w dirOnly k v s rest hl,
          expectedLogged_cons_decodable w k v s rest hl]
  · intro pre k bad post msg hpre hbad
    induction pre with
    | nil =>
      simp [ListCmd.Run, ListFuncAcc, ListCmd.handle, expectedPrinted,
        expectedLogged, hbad]
    | cons e rest ih =>
      obtain ⟨k2, v2⟩ := e
      have hv := hpre (k2, v2) (List.mem_cons_self _ _)
      have hrest := ih fun x hx => hpre x (List.mem_cons_of_mem _ hx)
      cases hl : LoadSpec v2 with
      | error m => rw [hl] at hv; simp [Except.isOk, Except.toBool] at hv
      | ok s =>
        have hstep := listRun_cons_decodable w dirOnly k2 v2 s
          (rest ++ (k, bad) :: post) hl
        rw [List.cons_append] at *
        rw [hstep, hrest,
          expectedPrinted_cons_decodable w dirOnly k2 v2 s rest hl,
          expectedLogged_cons_decodable w k2 v2 s rest hl]

/-- Witness for C8: on a store holding `a` (directory present), `b`
(directory missing), a malformed entry, and `c`, the listing prints
only `a`'s line, logs only `b`'s inconsistency, and aborts at the
malformed entry without reaching `c`. -/
theorem list_skips_missing_and_aborts_on_decode_error_witness :
    ListCmd.Run listWorld false
      [("python:a", specA.marshal), ("python:b", specB.marshal),
       ("bad", .str "x"), ("python:c", specC.marshal)] =
      (.error (.malformedSpec
          "unmarshal spec: cannot unmarshal into Go value of type main.Spec"),
        ["a (python) - /data/a"], ["Environment does not exist: python:b"]) :=
  (list_skips_missing_and_aborts_on_decode_error listWorld false).2
    [("python:a", specA.marshal), ("python:b", specB.marshal)]
    "bad" (.str "x") [("python:c", specC.marshal)]
    "unmarshal spec: cannot unmarshal into Go value of type main.Spec"
    (by decide) rfl

/-- Snapshot lemma: when no listed element carries an error, the
snapshot collects exactly the listed keys, in order, with one
enumeration event each. -/
theorem snapshotKeys_all_ok (l : List (String × Option String))
    (h : ∀ p ∈ l, p.2 = none) :
    snapshotKeys l =
      (.ok (l.map Prod.fst), l.map fun p => Effect.listKey p.1) := by
  induction l with
  | nil => rfl
  | cons p rest ih =>
    obtain ⟨k, oe⟩ := p
    have h1 : oe = none := h (k, oe) (List.mem_cons_self _ _)
    subst h1
    have h2 := ih fun q hq => h q (List.mem_cons_of_mem _ hq)
    simp [snapshotKeys, h2]

/-- The keys the bulk deletion loop attempts form a prefix of the
snapshot. -/
theorem deleteAttempts_isTake (w : World) (force : Bool) :
    ∀ (ks : List String) (input : List (Option String)),
      ∃ n ≤ ks.length, deleteAttempts w force ks input = ks.take n := by
  intro ks
  induction ks with
  | nil => exact fun _ => ⟨0, Nat.le_refl 0, rfl⟩
  | cons k rest ih =>
    intro input
    rcases hd : DeleteCmd.deleteKeyEnv w k force input with ⟨r, fx, rem⟩
    cases r with
    | error e =>
      refine ⟨1, by simp, ?_⟩
      simp [deleteAttempts, hd]
    | ok u =>
      cases u
      obtain ⟨n, hn, he⟩ := ih rem
      refine ⟨n + 1, by simpa using Nat.succ_le_succ hn, ?_⟩
      simp [deleteAttempts, hd, he]

/-- A fully successful bulk deletion attempts every snapshotted key. -/
theorem deleteKeys_ok_attempts_all (w : World) (force : Bool) :
    ∀ (ks : List String) (input : List (Option String)),
      (deleteKeys w force ks input).1 = .ok () →
      deleteAttempts w force ks input = ks := by
  intro ks
  induction ks with
  | nil => exact fun _ _ => rfl
  | cons k rest ih =>
    intro input h
    rcases hd : DeleteCmd.deleteKeyEnv w k force input with ⟨r, fx, rem⟩
    cases r with
    | error e => simp [deleteKeys, hd] at h
    | ok u =>
      cases u
      simp only [deleteKeys, hd] at h
      simp [deleteAttempts, hd, ih rem h]

/-- C7: bulk delete snapshots the full key list in a single enumeration
pass before any deletion starts (the run's trace is all enumeration
events followed by the deletion phase), then runs the single-delete
procedure on the snapshotted keys in order: the attempted keys form a
prefix of the snapshot, a fully successful run attempts them all, a
failing key's error is returned with the keys after it never attempted,
and each succeeding key hands the remaining input stream to the rest of
the batch. -/
theorem delete_all_snapshots_then_aborts_on_failure (w : World)
    (d : DeleteCmdArgs) (input : List (Option String)) (hAll : d.All = true)
    (hList : ∀ p ∈ w.storeList, p.2 = none) :
    DeleteCmd.Run w d input =
      ((deleteKeys w d.Force (w.storeList.map Prod.fst) input).1,
        (w.storeList.map fun p => Effect.listKey p.1) ++
          (deleteKeys w d.Force (w.storeList.map Prod.fst) input).2.1) ∧
    (∃ n ≤ (w.storeList.map Prod.fst).length,
      deleteAttempts w d.Force (w.storeList.map Prod.fst) input =
        (w.storeList.map Prod.fst).take n) ∧
    ((deleteKeys w d.Force (w.storeList.map Prod.fst) input).1 = .ok () →
      deleteAttempts w d.Force (w.storeList.map Prod.fst) input =
        w.storeList.map Prod.fst) ∧
    (∀ k ks inp e fx restInp,
      DeleteCmd.deleteKeyEnv w k d.Force inp = (.error e, fx, restInp) →
      deleteKeys w d.Force (k :: ks) inp = (.error e, fx, restInp) ∧
      deleteAttempts w d.Force (k :: ks) inp = [k]) ∧
    (∀ k ks inp fx restInp,
      DeleteCmd.deleteKeyEnv w k d.Force inp = (.ok (), fx, restInp) →
      deleteKeys w d.Force (k :: ks) inp =
        ((deleteKeys w d.Force ks restInp).1,
          fx ++ (deleteKeys w d.Force ks restInp).2.1,
          (deleteKeys w d.Force ks restInp).2.2) ∧
      deleteAttempts w d.Force (k :: ks) inp =
        k :: deleteAttempts w d.Force ks restInp) := by
  refine ⟨?_, deleteAttempts_isTake w d.Force _ input,
    deleteKeys_ok_attempts_all w d.Force _ input, ?_, ?_⟩
  · simp only [DeleteCmd.Run, hAll]
    rw [snapshotKeys_all_ok w.storeList hList]
    simp
  · intro k ks inp e fx restInp hd
    constructor <;> simp [deleteKeys, deleteAttempts, hd]
  · intro k ks inp fx restInp hd
    constructor <;> simp [deleteKeys, deleteAttempts, hd]

/-- Witness for C7: deleting all of `{a, b}` when removing `a`'s
directory fails enumerates both keys first, then aborts at `a` — `b` is
never attempted. -/
theorem delete_all_snapshots_then_aborts_on_failure_witness :
    DeleteCmd.Run batchWorld batchArgs [] =
      (.error (.removeFailed "python:a"),
        [.listKey "python:a", .listKey "python:b", .removeAll "/data/a"]) ∧
    deleteAttempts batchWorld true ["python:a", "python:b"] [] =
      ["python:a"] := by
  have h := delete_all_snapshots_then_aborts_on_failure batchWorld batchArgs []
    rfl (by decide)
  refine ⟨h.1.trans (by rfl), ?_⟩
  exact (h.2.2.2.1 "python:a" ["python:b"] [] (.removeFailed "python:a")
    [.removeAll "/data/a"] [] rfl).2

end Scratch
